import Mathlib

/-!
# Verification of the TM-H6000IV impact-slip raster filter

A shallow embedding of the raster-to-command transcoder in
`src/Impact Slip/filter/TmImpactSlip.c`, together with theorems settling the
spec's claims about it.  Bytes are modelled as `Nat` (each produced byte is
below 256), buffers as `List Nat`, a page as a list of scanlines, and the
result codes `EPTMD_SUCCESS` / `EPTMD_FAILED` / `EPTMD_CANCEL` as integers,
exactly as the C `#define`s give them.
-/

namespace TmImpactSlip

abbrev Byte := Nat

/-- Result code `EPTMD_SUCCESS (0)`. -/
def EPTMD_SUCCESS : Int := 0

/-- Result code `EPTMD_FAILED (-1)`. -/
def EPTMD_FAILED : Int := -1

/-- Result code `EPTMD_CANCEL (-2)`. -/
def EPTMD_CANCEL : Int := -2

/-- `EPTME_BLANK_SKIP_TYPE`: the paper-reduction choices (TmImpactSlip.c,
lines 50-55). -/
inductive PaperReduction
  | off
  | top
  | bottom
  | both
deriving DecidableEq

/-- The fields of `cups_page_header_t` the transcoder reads: pixel width,
bytes per scanline, scanline count and the vertical resolution
`HWResolution[1]`. -/
structure PageHeader where
  cupsWidth : Nat
  cupsBytesPerLine : Nat
  cupsHeight : Nat
  vResolution : Nat
deriving DecidableEq

/-- The fields of `EPTMS_CONFIG_T` the transcoder reads: the vertical motion
unit and the paper-reduction mode (`maxBandLines` is fixed at 8 by `Init`,
TmImpactSlip.c line 229, and is kept as the literal 8 below). -/
structure Config where
  vMotionUnit : Nat
  paperReduction : PaperReduction
deriving DecidableEq

/-! ## Feed calculator (`FeedPaper`, TmImpactSlip.c lines 976-1004) -/

/-- The truncated integer feed distance `point` of `FeedPaper` (lines
982-986): the integral part of
`num_line * v_motionUnit / HWResolution[1]`.  The C computes the quotient in
`double` and takes `modf`'s integral part; for the integer ranges involved
(motion unit at most 255, resolutions and line counts far below 2^26) the
correctly rounded double quotient truncates to the exact rational
truncation, which over `Nat` is division.  Note that `integral` and
`fractional` are locals of `FeedPaper`: no fractional remainder survives the
call. -/
def feedPoint (config : Config) (header : PageHeader) (numLine : Nat) : Nat :=
  numLine * config.vMotionUnit / header.vResolution

/-- The distances of the `ESC J` commands the loop of `FeedPaper` (lines
992-1001) emits for a truncated distance `point`, chunked at 255: while
`0xff < point` emit a distance-255 command and subtract 255, then emit one
command for the remaining `point` when it is positive.  Structural recursion
on a fuel argument; each loop iteration removes 255, so `point` itself is
enough fuel (see `feedChunksGo_fuel`). -/
def feedChunksGo : Nat → Nat → List Nat
  | 0, _ => []
  | fuel + 1, point =>
    if 255 < point then 255 :: feedChunksGo fuel (point - 255)
    else if 0 < point then [point]
    else []

/-- The distance bytes of the feed commands `FeedPaper` emits for a truncated
distance `point`. -/
def feedChunks (point : Nat) : List Nat :=
  feedChunksGo point point

/-- One `ESC J n` feed command (line 978: `{ ESC, 'J', distance }`). -/
def feedCommandBytes (d : Nat) : List Byte :=
  [0x1b, 0x4a, d]

/-- The byte stream `FeedPaper` writes for `num_line` scanlines: one `ESC J`
command per chunk of the truncated distance, nothing when the truncated
distance is zero. -/
def FeedPaper (config : Config) (header : PageHeader) (numLine : Nat) : List Byte :=
  ((feedChunks (feedPoint config header numLine)).map feedCommandBytes).flatten

/-! ### Closed form of the chunking loop -/

/-- With enough fuel the chunking loop yields `point / 255` full commands and
one remainder command when `point % 255` is positive; when `point` is a
positive multiple of 255 the final loop exit emits the last 255 itself. -/
lemma feedChunksGo_fuel (fuel point : Nat) (h : point ≤ fuel) :
    feedChunksGo fuel point =
      List.replicate (point / 255) 255 ++
        (if point % 255 = 0 then [] else [point % 255]) := by
  induction fuel generalizing point with
  | zero =>
    interval_cases point
    simp [feedChunksGo]
  | succ fuel ih =>
    rw [feedChunksGo]
    by_cases h255 : 255 < point
    · rw [if_pos h255, ih (point - 255) (by omega)]
      have hdiv : (point - 255) / 255 + 1 = point / 255 := by
        omega
      have hmod : (point - 255) % 255 = point % 255 := by
        omega
      rw [hmod, ← hdiv, List.replicate_succ]
      simp
    · rw [if_neg h255]
      by_cases h0 : 0 < point
      · rw [if_pos h0]
        by_cases hp : point = 255
        · subst hp; simp
        · have hq : point / 255 = 0 := by omega
          have hr : point % 255 = point := by omega
          rw [hq, hr, if_neg (by omega)]
          simp
      · have : point = 0 := by omega
        subst this
        simp

/-- `feedChunks` in closed form. -/
lemma feedChunks_eq (point : Nat) :
    feedChunks point =
      List.replicate (point / 255) 255 ++
        (if point % 255 = 0 then [] else [point % 255]) :=
  feedChunksGo_fuel point point le_rfl

/-- The chunk distances sum back to the truncated distance exactly. -/
lemma feedChunks_sum (point : Nat) : (feedChunks point).sum = point := by
  rw [feedChunks_eq]
  rcases Nat.eq_zero_or_pos point with h | h
  · subst h; simp
  · have h255 : point % 255 = 0 ∨ point % 255 ≠ 0 := em _
    rcases h255 with h0 | h0 <;>
      simp [h0, List.sum_replicate, Nat.div_add_mod, smul_eq_mul] <;>
      omega

/-- Every chunk distance fits one command byte (1..255). -/
lemma feedChunks_mem (point d : Nat) (h : d ∈ feedChunks point) :
    0 < d ∧ d ≤ 255 := by
  rw [feedChunks_eq] at h
  rcases List.mem_append.mp h with h | h
  · have := List.eq_of_mem_replicate h
    omega
  · rcases em (point % 255 = 0) with h0 | h0
    · simp [h0] at h
    · simp only [h0, if_false, List.mem_singleton] at h
      subst h
      have := Nat.mod_lt point (show 0 < 255 by omega)
      omega

lemma div_add_div_le (a b r : Nat) : a / r + b / r ≤ (a + b) / r := by
  rcases Nat.eq_zero_or_pos r with h | h
  · subst h; simp
  · rw [Nat.le_div_iff_mul_le h, Nat.add_mul]
    exact Nat.add_le_add (Nat.div_mul_le_self a r) (Nat.div_mul_le_self b r)

lemma add_div_le_succ (a b r : Nat) (h : 0 < r) : (a + b) / r ≤ a / r + b / r + 1 := by
  rw [Nat.add_div h]
  split <;> omega

/-- C8: for every feed invocation with truncated distance `d = feedPoint …`,
nothing is emitted when `d = 0`; otherwise the loop of `FeedPaper` emits
`d / 255` distance-255 commands followed by one command for the remainder
`d % 255` when it is positive (when `d` is an exact positive multiple of 255
the last loop exit emits the final 255 itself, so a zero remainder adds no
command), every emitted distance is in 1..255, and the emitted distances sum
to `d` exactly.  Illustrated at `d = 510` (exact multiple) and `d = 300`. -/
theorem claim_C8_feed_chunking :
    (∀ config header numLine, feedPoint config header numLine = 0 →
        FeedPaper config header numLine = [])
    ∧ (∀ config header numLine,
        feedChunks (feedPoint config header numLine) =
          List.replicate (feedPoint config header numLine / 255) 255 ++
            (if feedPoint config header numLine % 255 = 0 then []
             else [feedPoint config header numLine % 255]))
    ∧ (∀ config header numLine,
        (feedChunks (feedPoint config header numLine)).sum =
          feedPoint config header numLine)
    ∧ (∀ config header numLine d,
        d ∈ feedChunks (feedPoint config header numLine) → 0 < d ∧ d ≤ 255)
    ∧ FeedPaper ⟨255, .off⟩ ⟨8, 1, 8, 1⟩ 2 =
        [0x1b, 0x4a, 255, 0x1b, 0x4a, 255]
    ∧ FeedPaper ⟨150, .off⟩ ⟨8, 1, 8, 1⟩ 2 =
        [0x1b, 0x4a, 255, 0x1b, 0x4a, 45]
    ∧ FeedPaper ⟨10, .off⟩ ⟨8, 1, 8, 203⟩ 3 = [] := by
  refine ⟨?_, ?_, ?_, ?_, by decide, by decide, by decide⟩
  · intro config header numLine h
    unfold FeedPaper
    rw [h]
    rfl
  · intro config header numLine
    exact feedChunks_eq _
  · intro config header numLine
    exact feedChunks_sum _
  · intro config header numLine d hd
    exact feedChunks_mem _ d hd

/-- C1 (amended): `FeedPaper` keeps no state between invocations — `integral`
and `fractional` are locals and the fractional part is discarded — so each
call truncates `scanlineCount * verticalMotionUnit / verticalResolution`
independently.  The sum of the distances emitted for counts n1, …, nk is the
sum of the individually truncated distances; it never exceeds the single-call
truncated total for n1+…+nk and undershoots it by at most k-1 units.  For
motion unit 10 and resolution 203 with counts 3, 3, 3 both the emitted sum
and the single-call result for 9 scanlines are 0, so that instance agrees. -/
theorem claim_C1_feed_truncation_independent :
    (∀ (config : Config) (header : PageHeader) (ns : List Nat),
        ((ns.map fun n => (feedChunks (feedPoint config header n)).sum)).sum =
          (ns.map (feedPoint config header)).sum)
    ∧ (∀ (config : Config) (header : PageHeader) (ns : List Nat),
        ((ns.map (feedPoint config header)).sum : Nat) ≤
          feedPoint config header ns.sum)
    ∧ (∀ (config : Config) (header : PageHeader) (ns : List Nat),
        0 < header.vResolution →
        feedPoint config header ns.sum ≤
          (ns.map (feedPoint config header)).sum + (ns.length - 1))
    ∧ (([3, 3, 3].map fun n =>
          (feedChunks (feedPoint ⟨10, .off⟩ ⟨8, 1, 8, 203⟩ n)).sum).sum =
        feedPoint ⟨10, .off⟩ ⟨8, 1, 8, 203⟩ (3 + 3 + 3)) := by
  refine ⟨?_, ?_, ?_, by decide⟩
  · intro config header ns
    induction ns with
    | nil => rfl
    | cons n rest ih => simp [feedChunks_sum, ih]
  · intro config header ns
    induction ns with
    | nil => simp [feedPoint]
    | cons n rest ih =>
      simp only [List.map_cons, List.sum_cons]
      calc feedPoint config header n + (rest.map (feedPoint config header)).sum
          ≤ feedPoint config header n + feedPoint config header rest.sum :=
            Nat.add_le_add_left ih _
        _ ≤ feedPoint config header (n :: rest).sum := by
            unfold feedPoint
            rw [List.sum_cons, Nat.add_mul]
            exact div_add_div_le _ _ _
  · intro config header ns hres
    induction ns with
    | nil => simp [feedPoint]
    | cons n rest ih =>
      cases rest with
      | nil => simp
      | cons m rest2 =>
        simp only [List.map_cons, List.sum_cons, List.length_cons] at ih ⊢
        have step : feedPoint config header (n + (m + rest2.sum)) ≤
            feedPoint config header n + feedPoint config header (m + rest2.sum) + 1 := by
          unfold feedPoint
          rw [Nat.add_mul]
          exact add_div_le_succ _ _ _ hres
        omega

/-- C1 counterexample: with vertical motion unit 10 and vertical resolution
203, successive invocations with scanline counts 101 and 101 emit distances
4 and 4 (sum 8), while the single call for 202 scanlines emits 9: the feed
calculator carries no fractional remainder between invocations, so the
claimed equality fails at this input. -/
theorem claim_C1_counterexample :
    (([101, 101].map fun n =>
        (feedChunks (feedPoint ⟨10, .off⟩ ⟨8, 1, 8, 203⟩ n)).sum).sum = 8)
    ∧ feedPoint ⟨10, .off⟩ ⟨8, 1, 8, 203⟩ (101 + 101) = 9
    ∧ ¬(([101, 101].map fun n =>
          (feedChunks (feedPoint ⟨10, .off⟩ ⟨8, 1, 8, 203⟩ n)).sum).sum =
        feedPoint ⟨10, .off⟩ ⟨8, 1, 8, 203⟩ (101 + 101)) := by
  refine ⟨by decide, by decide, by decide⟩

/-! ## Band transposer (`WriteBand` make send-data, TmImpactSlip.c lines 858-884) -/

/-- Byte `x` of scanline `k` of a band view (the C reads `p_datak[x]`, where
`p_datak` is the band pointer advanced `k` scanlines); the guards of lines
873-880 ensure only scanlines inside the band are ever read. -/
def bandByte (band : List (List Byte)) (k x : Nat) : Byte :=
  (band.getD k []).getD x 0

/-- The contribution of scanline `k` to an output byte (lines 873-880): when
`k + 1 ≤ lines`, the expression
`((p_datak[x] >> (7 - bit)) << (7 - k)) & (0x80 >> k)`; a scanline beyond the
band contributes 0, the value `memset` left in the send buffer. -/
def lineContribution (band : List (List Byte)) (lines k x bit : Nat) : Byte :=
  if k + 1 ≤ lines then
    ((bandByte band k x >>> (7 - bit)) <<< (7 - k)) &&& (0x80 >>> k)
  else 0

/-- Output byte `index = x*8 + bit` of the transposed band: the OR of the
eight scanline contributions (line 873 assigns the first contribution into
the zero-filled buffer, lines 874-880 OR in the rest, which equals folding OR
from 0). -/
def transposeByte (band : List (List Byte)) (lines x bit : Nat) : Byte :=
  (List.range 8).foldl (fun acc k => acc ||| lineContribution band lines k x bit) 0

/-- The `Make send-data` block (lines 858-884): `send_data_size =
cupsBytesPerLine * 8` bytes; the double loop over `x < cupsBytesPerLine` and
`bit < 8` writes output position `index = x*8 + bit`, written here over the
flat index with `x = index / 8` and `bit = index % 8`. -/
def transposeBand (header : PageHeader) (band : List (List Byte)) (lines : Nat) :
    List Byte :=
  (List.range (header.cupsBytesPerLine * 8)).map fun index =>
    transposeByte band lines (index / 8) (index % 8)

/-- The mask `0x80 >> k` is the single bit `7 - k` for `k < 8`. -/
lemma mask_eq_two_pow (k : Nat) (hk : k < 8) : (0x80 >>> k) = 2 ^ (7 - k) := by
  rw [Nat.shiftRight_eq_div_pow]
  have h7 : (0x80 : Nat) = 2 ^ 7 := by norm_num
  rw [h7, Nat.pow_div (by omega) (by omega)]

/-- A scanline `j ≠ k` contributes nothing at bit `7 - k`. -/
lemma lineContribution_testBit_ne (band : List (List Byte)) (lines j x b k : Nat)
    (hj : j < 8) (hk : k < 8) (hne : j ≠ k) :
    (lineContribution band lines j x b).testBit (7 - k) = false := by
  unfold lineContribution
  by_cases hl : j + 1 ≤ lines
  · rw [if_pos hl, Nat.testBit_land, mask_eq_two_pow j hj,
      Nat.testBit_two_pow_of_ne (by omega)]
    simp
  · rw [if_neg hl]
    exact Nat.zero_testBit _

/-- At bit `7 - k`, the output carries exactly scanline `k`'s bit `7 - b`,
when scanline `k` is inside the band. -/
lemma lineContribution_testBit_self (band : List (List Byte)) (lines x b k : Nat)
    (hk : k < 8) :
    (lineContribution band lines k x b).testBit (7 - k) =
      (decide (k + 1 ≤ lines) && (bandByte band k x).testBit (7 - b)) := by
  unfold lineContribution
  by_cases hl : k + 1 ≤ lines
  · rw [if_pos hl, Nat.testBit_land, mask_eq_two_pow k hk,
      Nat.testBit_two_pow_self, Nat.testBit_shiftLeft, Nat.testBit_shiftRight]
    simp [hl]
  · rw [if_neg hl]
    simp [hl, Nat.zero_testBit]

/-- Scanlines `j < n ≤ k` leave bit `7 - k` clear in the partial fold. -/
lemma foldl_contrib_testBit_high (band : List (List Byte)) (lines x b n k : Nat)
    (hk : k < 8) (hkn : n ≤ k) :
    ((List.range n).foldl
        (fun acc j => acc ||| lineContribution band lines j x b) 0).testBit (7 - k) =
      false := by
  induction n with
  | zero => simp
  | succ n ih =>
    rw [List.range_succ, List.foldl_append]
    simp only [List.foldl_cons, List.foldl_nil]
    rw [Nat.testBit_lor, ih (by omega),
      lineContribution_testBit_ne band lines n x b k (by omega) hk (by omega)]
    rfl

/-- Bit `7 - k` of the partial fold over scanlines `0..n-1`, for `k < n`. -/
lemma foldl_contrib_testBit (band : List (List Byte)) (lines x b n k : Nat)
    (hn : n ≤ 8) (hk : k < n) :
    ((List.range n).foldl
        (fun acc j => acc ||| lineContribution band lines j x b) 0).testBit (7 - k) =
      (decide (k + 1 ≤ lines) && (bandByte band k x).testBit (7 - b)) := by
  induction n with
  | zero => omega
  | succ n ih =>
    rw [List.range_succ, List.foldl_append]
    simp only [List.foldl_cons, List.foldl_nil]
    rw [Nat.testBit_lor]
    by_cases hkn : k = n
    · subst hkn
      rw [foldl_contrib_testBit_high band lines x b k k (by omega) le_rfl,
        lineContribution_testBit_self band lines x b k (by omega)]
      rfl
    · rw [ih (by omega) (by omega),
        lineContribution_testBit_ne band lines n x b k (by omega) (by omega)
          (by omega)]
      exact Bool.or_false _

/-- Bit `7 - k` (bit `k` counting from the most significant end) of output
byte `x*8 + b`. -/
lemma transposeByte_testBit (band : List (List Byte)) (lines x b k : Nat)
    (hk : k < 8) :
    (transposeByte band lines x b).testBit (7 - k) =
      (decide (k + 1 ≤ lines) && (bandByte band k x).testBit (7 - b)) := by
  unfold transposeByte
  exact foldl_contrib_testBit band lines x b 8 k le_rfl hk

/-- `getD` through the range-map shape of `transposeBand`. -/
lemma getD_map_range (n i d : Nat) (f : Nat → Nat) (h : i < n) :
    ((List.range n).map f).getD i d = f i := by
  rw [List.getD_eq_getElem?_getD, List.getElem?_map]
  simp [List.getElem?_range, h]

/-- C2: the transposed output of a band of 1..8 scanlines has exactly
`cupsBytesPerLine * 8` bytes, and output byte `x*8 + b` carries, at bit `k`
counted from the most significant end, bit `b` (also counted from the most
significant end) of scanline `k`'s byte `x` for `k < lines`, and 0 for every
`k ≥ lines`; for the band `bytesPerLine = 1`, scanline 0 = `0x80`,
scanline 1 = `0x40`, the first two output bytes are `0x80` and `0x40` and
the remaining six are zero. -/
theorem claim_C2_band_transposition :
    (∀ (header : PageHeader) (band : List (List Byte)) (lines : Nat),
        (transposeBand header band lines).length = header.cupsBytesPerLine * 8)
    ∧ (∀ (header : PageHeader) (band : List (List Byte)) (lines x b k : Nat),
        1 ≤ lines → lines ≤ 8 →
        x < header.cupsBytesPerLine → b < 8 → k < 8 →
        ((transposeBand header band lines).getD (x * 8 + b) 0).testBit (7 - k) =
          if k < lines then (bandByte band k x).testBit (7 - b) else false)
    ∧ transposeBand ⟨8, 1, 8, 1⟩ [[0x80], [0x40]] 2 =
        [0x80, 0x40, 0, 0, 0, 0, 0, 0] := by
  refine ⟨?_, ?_, by decide⟩
  · intro header band lines
    simp [transposeBand]
  · intro header band lines x b k h1 h8 hx hb hk
    unfold transposeBand
    rw [getD_map_range _ _ _ _ (by omega)]
    have hdivx : (x * 8 + b) / 8 = x := by omega
    have hmodb : (x * 8 + b) % 8 = b := by omega
    rw [hdivx, hmodb, transposeByte_testBit band lines x b k hk]
    by_cases hkl : k < lines
    · simp [hkl, Nat.succ_le_of_lt hkl]
    · simp [hkl, show ¬(k + 1 ≤ lines) by omega]

/-! ## Data sanitizer (`AvoidDisturbingData`, TmImpactSlip.c lines 772-791) -/

/-- `AvoidDisturbingData`'s scan as intended: a linear pass from index 0 over
the transposed buffer, rewriting `0x10` to `0x30` when followed by `0x04`,
`0x05` or `0x14`, and `0x1B` to `0x3B` when followed by `0x3D`.  NOTE — the C
declares the loop index without initialising it
(`unsigned long i; for ( ; (i + 1) < data_size; i++ )`, lines 777-778), so
the scan's starting index is read from an uninitialised local: undefined
behaviour.  The evident intent, which the spec describes, is `i = 0`; this
definition models that intent.  The successor byte `p_data[i+1]` is examined
before step `i+1` can rewrite it and only position `i` is ever written, so
the in-place sequential scan equals this one-pass rewrite. -/
def AvoidDisturbingData : List Byte → List Byte
  | b0 :: b1 :: rest =>
    (if b0 = 0x10 ∧ (b1 = 0x04 ∨ b1 = 0x05 ∨ b1 = 0x14) then 0x30
     else if b0 = 0x1B ∧ b1 = 0x3D then 0x3B
     else b0) :: AvoidDisturbingData (b1 :: rest)
  | l => l

lemma avoidDisturbingData_length (l : List Byte) :
    (AvoidDisturbingData l).length = l.length := by
  induction l with
  | nil => rfl
  | cons b0 tail ih =>
    cases tail with
    | nil => rfl
    | cons b1 rest =>
      rw [AvoidDisturbingData]
      simp only [List.length_cons] at ih ⊢
      omega

lemma avoidDisturbingData_getD (l : List Byte) (i : Nat) :
    (AvoidDisturbingData l).getD i 0 =
      if i + 1 < l.length ∧ l.getD i 0 = 0x10 ∧
          (l.getD (i + 1) 0 = 0x04 ∨ l.getD (i + 1) 0 = 0x05 ∨
            l.getD (i + 1) 0 = 0x14) then 0x30
      else if i + 1 < l.length ∧ l.getD i 0 = 0x1B ∧ l.getD (i + 1) 0 = 0x3D
        then 0x3B
      else l.getD i 0 := by
  induction l generalizing i with
  | nil =>
    have h : AvoidDisturbingData [] = [] := rfl
    rw [h]
    simp
  | cons b0 tail ih =>
    cases tail with
    | nil =>
      have h : AvoidDisturbingData [b0] = [b0] := rfl
      rw [h]
      cases i with
      | zero => simp
      | succ n => simp
    | cons b1 rest =>
      cases i with
      | zero =>
        rw [AvoidDisturbingData]
        simp only [List.getD_cons_zero, List.getD_cons_succ, List.length_cons]
        have hlen : 0 + 1 < rest.length + 1 + 1 := by omega
        simp [hlen]
      | succ n =>
        rw [AvoidDisturbingData]
        simp only [List.getD_cons_succ]
        rw [ih n]
        simp only [List.length_cons, List.getD_cons_succ,
          Nat.add_lt_add_iff_right]

/-- C3 (intent of lines 772-791, with the loop index starting at 0 — see the
note on `AvoidDisturbingData`): the sanitizer rewrites exactly the claimed
positions — a `0x10` immediately followed by `0x04`, `0x05` or `0x14`
becomes `0x30`, a `0x1B` immediately followed by `0x3D` becomes `0x3B` — no
other byte changes and the length is preserved; in particular
`0x10, 0x04 ↦ 0x30, 0x04`, `0x1B, 0x3D ↦ 0x3B, 0x3D`, and `0x10, 0x06` is
untouched. -/
theorem claim_C3_sanitizer_rewrites :
    (∀ l : List Byte, (AvoidDisturbingData l).length = l.length)
    ∧ (∀ (l : List Byte) (i : Nat),
        (AvoidDisturbingData l).getD i 0 =
          if i + 1 < l.length ∧ l.getD i 0 = 0x10 ∧
              (l.getD (i + 1) 0 = 0x04 ∨ l.getD (i + 1) 0 = 0x05 ∨
                l.getD (i + 1) 0 = 0x14) then 0x30
          else if i + 1 < l.length ∧ l.getD i 0 = 0x1B ∧
              l.getD (i + 1) 0 = 0x3D then 0x3B
          else l.getD i 0)
    ∧ AvoidDisturbingData [0x10, 0x04] = [0x30, 0x04]
    ∧ AvoidDisturbingData [0x1B, 0x3D] = [0x3B, 0x3D]
    ∧ AvoidDisturbingData [0x10, 0x06] = [0x10, 0x06] :=
  ⟨avoidDisturbingData_length, avoidDisturbingData_getD,
    by decide, by decide, by decide⟩

/-! ## Band output (`WriteBand`, TmImpactSlip.c lines 840-897) -/

/-- The `ESC *` band-raster command (lines 848-850): opcode, mode 1, then
the pixel width, low byte first. -/
def bandCommandBytes (header : PageHeader) : List Byte :=
  [0x1b, 0x2a, 1, header.cupsWidth &&& 0xff, (header.cupsWidth >>> 8) &&& 0xff]

/-- The byte stream `WriteBand` writes for a band view of `lines` scanlines:
the `ESC *` command, the transposed and sanitised `cupsBytesPerLine * 8`-byte
payload (`AvoidDisturbingData` is called on the whole send buffer: start
line 0, last line 8, line 887), then a feed computed for 8 scanlines
regardless of `lines` (line 893). -/
def WriteBand (config : Config) (header : PageHeader) (band : List (List Byte))
    (lines : Nat) : List Byte :=
  bandCommandBytes header ++
    AvoidDisturbingData (transposeBand header band lines) ++
    FeedPaper config header 8

/-- The command-plus-payload prefix of a band has `5 + cupsBytesPerLine * 8`
bytes. -/
lemma writeBand_prefix_length (header : PageHeader)
    (band : List (List Byte)) (lines : Nat) :
    (bandCommandBytes header ++
        AvoidDisturbingData (transposeBand header band lines)).length =
      5 + header.cupsBytesPerLine * 8 := by
  rw [List.length_append, avoidDisturbingData_length]
  simp [bandCommandBytes, transposeBand]

/-- C10: every band `WriteBand` emits — the final partial band of fewer than
8 scanlines included — is followed by a paper feed computed for exactly 8
scanlines: the bytes after the 5-byte command and the
`cupsBytesPerLine * 8`-byte payload are `FeedPaper … 8`, whatever `lines`
is.  Concretely, with motion unit 1 and resolution 1 a 3-line partial band
is followed by the distance-8 feed command, not the distance-3 one. -/
theorem claim_C10_partial_band_full_feed :
    (∀ (config : Config) (header : PageHeader) (band : List (List Byte))
        (lines : Nat),
        (WriteBand config header band lines).drop
            (5 + header.cupsBytesPerLine * 8) =
          FeedPaper config header 8)
    ∧ (WriteBand ⟨1, .off⟩ ⟨8, 1, 8, 1⟩ [[0x80], [0x40], [0x20]] 3).drop
          (5 + 1 * 8) = [0x1b, 0x4a, 8]
    ∧ FeedPaper ⟨1, .off⟩ ⟨8, 1, 8, 1⟩ 8 = [0x1b, 0x4a, 8]
    ∧ FeedPaper ⟨1, .off⟩ ⟨8, 1, 8, 1⟩ 3 = [0x1b, 0x4a, 3] := by
  refine ⟨?_, by decide, by decide, by decide⟩
  intro config header band lines
  rw [WriteBand]
  rw [show 5 + header.cupsBytesPerLine * 8 =
      (bandCommandBytes header ++
        AvoidDisturbingData (transposeBand header band lines)).length from
    (writeBand_prefix_length header band lines).symm]
  exact List.drop_left _ _

/-! ## Margin detector (`FindBlackRasterLineTop` / `FindBlackRasterLineEnd`,
TmImpactSlip.c lines 796-835) -/

/-- Whether a scanline contains a non-zero byte (the inner `x` loops of both
scans). -/
def lineHasBlack (row : List Byte) : Bool :=
  row.any fun b => b ≠ 0

/-- `FindBlackRasterLineTop` (lines 796-813): scan scanlines from index 0
upward, return the first index whose scanline has a non-zero byte, or
`cupsHeight` (the page length) when none does. -/
def FindBlackRasterLineTop : List (List Byte) → Nat
  | [] => 0
  | row :: rest =>
    if lineHasBlack row then 0 else FindBlackRasterLineTop rest + 1

/-- `FindBlackRasterLineEnd` (lines 818-835): scan scanlines from the last
index downward (`p_data` starts at scanline `cupsHeight - 1` and decreases),
return `cupsHeight - 1 - y` for the first hit, or 0 when the whole page is
blank; scanning the reversed page with the upward scan is that same loop. -/
def FindBlackRasterLineEnd (page : List (List Byte)) : Nat :=
  if FindBlackRasterLineTop page.reverse = page.length then 0
  else page.length - 1 - FindBlackRasterLineTop page.reverse

lemma findTop_le_length (page : List (List Byte)) :
    FindBlackRasterLineTop page ≤ page.length := by
  induction page with
  | nil => simp [FindBlackRasterLineTop]
  | cons row rest ih =>
    rw [FindBlackRasterLineTop]
    split
    · simp
    · simpa using ih

/-- Scanlines before the returned top index are blank. -/
lemma findTop_blank_before (page : List (List Byte)) (i : Nat)
    (h : i < FindBlackRasterLineTop page) :
    lineHasBlack (page.getD i []) = false := by
  induction page generalizing i with
  | nil => simp [FindBlackRasterLineTop] at h
  | cons row rest ih =>
    rw [FindBlackRasterLineTop] at h
    by_cases hrow : lineHasBlack row
    · simp [hrow] at h
    · rw [if_neg hrow] at h
      cases i with
      | zero => simpa using hrow
      | succ n => exact ih n (by omega)

/-- When the top scan stops inside the page, it stops at a black scanline. -/
lemma findTop_black_at (page : List (List Byte))
    (h : FindBlackRasterLineTop page < page.length) :
    lineHasBlack (page.getD (FindBlackRasterLineTop page) []) = true := by
  induction page with
  | nil => simp at h
  | cons row rest ih =>
    rw [FindBlackRasterLineTop] at h ⊢
    by_cases hrow : lineHasBlack row
    · simp [hrow]
    · rw [if_neg hrow] at h ⊢
      simpa using ih (by simpa using h)

/-- The top scan returns the page length exactly on an all-blank page. -/
lemma findTop_eq_length_iff (page : List (List Byte)) :
    FindBlackRasterLineTop page = page.length ↔
      ∀ i < page.length, lineHasBlack (page.getD i []) = false := by
  constructor
  · intro h i hi
    exact findTop_blank_before page i (by omega)
  · intro h
    by_contra hne
    have hlt : FindBlackRasterLineTop page < page.length :=
      lt_of_le_of_ne (findTop_le_length page) hne
    have := findTop_black_at page hlt
    rw [h _ hlt] at this
    exact Bool.false_ne_true this

lemma getD_reverse (l : List (List Byte)) (i : Nat) (h : i < l.length) :
    l.reverse.getD i [] = l.getD (l.length - 1 - i) [] := by
  rw [List.getD_eq_getElem?_getD, List.getD_eq_getElem?_getD,
    List.getElem?_reverse h]

/-- On an all-blank page the bottom scan returns its degenerate 0. -/
lemma findEnd_eq_zero_of_blank (page : List (List Byte))
    (h : ∀ i < page.length, lineHasBlack (page.getD i []) = false) :
    FindBlackRasterLineEnd page = 0 := by
  have hrev : FindBlackRasterLineTop page.reverse = page.length := by
    have := (findTop_eq_length_iff page.reverse).mpr ?_
    · rwa [List.length_reverse] at this
    · intro i hi
      rw [List.length_reverse] at hi
      rw [getD_reverse page i hi]
      exact h _ (by omega)
  rw [FindBlackRasterLineEnd, if_pos hrev]

/-- On a page with a black scanline the bottom scan stops at the last black
scanline: it is black and everything strictly below it is blank. -/
lemma findEnd_spec (page : List (List Byte))
    (hb : ∃ j, j < page.length ∧ lineHasBlack (page.getD j []) = true) :
    lineHasBlack (page.getD (FindBlackRasterLineEnd page) []) = true
    ∧ ∀ i, FindBlackRasterLineEnd page < i → i < page.length →
        lineHasBlack (page.getD i []) = false := by
  obtain ⟨j, hj, hblack⟩ := hb
  have hTne : FindBlackRasterLineTop page.reverse ≠ page.length := by
    intro hT
    have hall := (findTop_eq_length_iff page.reverse).mp
      (by rw [List.length_reverse]; exact hT)
    have hjr : page.length - 1 - j < page.reverse.length := by
      rw [List.length_reverse]; omega
    have := hall _ hjr
    rw [getD_reverse page _ (by omega)] at this
    have hjj : page.length - 1 - (page.length - 1 - j) = j := by omega
    rw [hjj] at this
    rw [hblack] at this
    simp at this
  have hTle : FindBlackRasterLineTop page.reverse ≤ page.length := by
    have := findTop_le_length page.reverse
    rwa [List.length_reverse] at this
  have hTlt : FindBlackRasterLineTop page.reverse < page.length := by omega
  rw [FindBlackRasterLineEnd, if_neg hTne]
  constructor
  · have := findTop_black_at page.reverse
      (by rw [List.length_reverse]; exact hTlt)
    rwa [getD_reverse page _ hTlt] at this
  · intro i hgt hlt
    have hr : page.length - 1 - i < FindBlackRasterLineTop page.reverse := by
      omega
    have := findTop_blank_before page.reverse _ hr
    rw [getD_reverse page _ (by omega)] at this
    have hii : page.length - 1 - (page.length - 1 - i) = i := by omega
    rwa [hii] at this

/-- C4: the top-margin scan returns the smallest scanline index containing a
non-zero byte (everything before it is blank and, when inside the page, the
returned scanline is black), or the page height when every byte is zero; the
bottom-margin scan returns the largest scanline index containing a non-zero
byte (it is black and everything after it is blank), or 0 when the page is
entirely blank.  For the 8-scanline page whose only non-zero byte sits in
scanline 5, top = 5 and bottom = 5, giving the printable range [5, 6). -/
theorem claim_C4_margin_detection :
    (∀ page : List (List Byte),
        (∀ i < FindBlackRasterLineTop page,
            lineHasBlack (page.getD i []) = false)
        ∧ (FindBlackRasterLineTop page < page.length →
            lineHasBlack (page.getD (FindBlackRasterLineTop page) []) = true)
        ∧ (FindBlackRasterLineTop page = page.length ↔
            ∀ i < page.length, lineHasBlack (page.getD i []) = false))
    ∧ (∀ page : List (List Byte),
        ((∀ i < page.length, lineHasBlack (page.getD i []) = false) →
            FindBlackRasterLineEnd page = 0)
        ∧ ((∃ j, j < page.length ∧ lineHasBlack (page.getD j []) = true) →
            lineHasBlack (page.getD (FindBlackRasterLineEnd page) []) = true
            ∧ ∀ i, FindBlackRasterLineEnd page < i → i < page.length →
                lineHasBlack (page.getD i []) = false))
    ∧ FindBlackRasterLineTop
        [[0], [0], [0], [0], [0], [1], [0], [0]] = 5
    ∧ FindBlackRasterLineEnd
        [[0], [0], [0], [0], [0], [1], [0], [0]] = 5
    ∧ FindBlackRasterLineEnd
        [[0], [0], [0], [0], [0], [1], [0], [0]] + 1 = 6 := by
  refine ⟨?_, ?_, by decide, by decide, by decide⟩
  · intro page
    exact ⟨fun i hi => findTop_blank_before page i hi,
      findTop_black_at page, findTop_eq_length_iff page⟩
  · intro page
    exact ⟨findEnd_eq_zero_of_blank page, findEnd_spec page⟩

/-! ## Page band loop and margins (`WriteRaster`, TmImpactSlip.c lines 718-767) -/

/-- The band loop of `WriteRaster` (lines 745-759):
`for (line_no = start; line_no + maxBandLines < last; line_no += maxBandLines)`
emits one full 8-scanline band per iteration, then the tail
(`if (line_no < last)`) emits one final band sized `last - line_no` (which is
1..8 — the loop exits as soon as `line_no + 8` reaches `last`, so a range of
exactly 8 lines is emitted by the tail).  Structural recursion on fuel; each
iteration advances `line_no` by 8 towards `last`, so `last + 1` iterations
always suffice. -/
def writeBandLoop (config : Config) (header : PageHeader)
    (page : List (List Byte)) : Nat → Nat → Nat → List Byte
  | 0, _, _ => []
  | fuel + 1, lineNo, last =>
    if lineNo + 8 < last then
      WriteBand config header (page.drop lineNo) 8 ++
        writeBandLoop config header page fuel (lineNo + 8) last
    else if lineNo < last then
      WriteBand config header (page.drop lineNo) (last - lineNo)
    else []

/-- All bands of the printable range `[start, last)`. -/
def writeBands (config : Config) (header : PageHeader) (page : List (List Byte))
    (start last : Nat) : List Byte :=
  writeBandLoop config header page (last + 1) start last

/-- The byte stream `WriteRaster` writes for one page (no cancellation
observed): on a fully blank page (`start_line_no == cupsHeight`, line 728) a
single full-height feed under mode `Off` and nothing otherwise; else the top
margin feed unless the mode is `Top` or `Both` (line 740), the bands of
`[start, last)` where `last = FindBlackRasterLineEnd + 1` (line 737), and
the bottom margin feed for `cupsHeight - last` unless the mode is `Bottom`
or `Both` (line 761). -/
def WriteRaster (config : Config) (header : PageHeader)
    (page : List (List Byte)) : List Byte :=
  if FindBlackRasterLineTop page = header.cupsHeight then
    if config.paperReduction = .off then
      FeedPaper config header header.cupsHeight
    else []
  else
    (if config.paperReduction = .top ∨ config.paperReduction = .both then []
     else FeedPaper config header (FindBlackRasterLineTop page)) ++
    writeBands config header page (FindBlackRasterLineTop page)
      (FindBlackRasterLineEnd page + 1) ++
    (if config.paperReduction = .bottom ∨ config.paperReduction = .both then []
     else FeedPaper config header
       (header.cupsHeight - (FindBlackRasterLineEnd page + 1)))

/-- C5: for a page whose bitmap is entirely zero bytes, no band-raster
commands are emitted: the page's whole output is one feed for the full page
height when the paper-reduction mode is `Off`, and empty under every other
mode.  Checked concretely on a blank 3-scanline page under all four modes. -/
theorem claim_C5_blank_page :
    (∀ (config : Config) (header : PageHeader) (page : List (List Byte)),
        page.length = header.cupsHeight →
        (∀ i < page.length, lineHasBlack (page.getD i []) = false) →
        WriteRaster config header page =
          if config.paperReduction = .off then
            FeedPaper config header header.cupsHeight
          else [])
    ∧ WriteRaster ⟨10, .off⟩ ⟨8, 1, 3, 203⟩ [[0], [0], [0]] =
        FeedPaper ⟨10, .off⟩ ⟨8, 1, 3, 203⟩ 3
    ∧ WriteRaster ⟨255, .off⟩ ⟨8, 1, 3, 1⟩ [[0], [0], [0]] =
        [0x1b, 0x4a, 255, 0x1b, 0x4a, 255, 0x1b, 0x4a, 255]
    ∧ WriteRaster ⟨255, .top⟩ ⟨8, 1, 3, 1⟩ [[0], [0], [0]] = []
    ∧ WriteRaster ⟨255, .bottom⟩ ⟨8, 1, 3, 1⟩ [[0], [0], [0]] = []
    ∧ WriteRaster ⟨255, .both⟩ ⟨8, 1, 3, 1⟩ [[0], [0], [0]] = [] := by
  refine ⟨?_, by decide, by decide, by decide, by decide, by decide⟩
  intro config header page hlen hblank
  have htop : FindBlackRasterLineTop page = header.cupsHeight := by
    rw [← hlen]
    exact (findTop_eq_length_iff page).mpr hblank
  rw [WriteRaster, if_pos htop]

/-- C6: for a non-blank page with printable range
`[top, bottom + 1)`, the top-margin feed (for `top` scanlines) is emitted
exactly under modes `Off` and `Bottom`, and the bottom-margin feed (for
`cupsHeight - (bottom + 1)` scanlines) exactly under modes `Off` and `Top`;
under `Both` neither margin feed is emitted.  Checked concretely under all
four modes on an 8-scanline page whose scanlines 2..4 are black (top = 2,
bottom = 4, with motion unit and resolution 1 so the margin feeds are
visible). -/
theorem claim_C6_margin_policy :
    (∀ (config : Config) (header : PageHeader) (page : List (List Byte)),
        FindBlackRasterLineTop page ≠ header.cupsHeight →
        WriteRaster config header page =
          (if config.paperReduction = .off ∨ config.paperReduction = .bottom
           then FeedPaper config header (FindBlackRasterLineTop page)
           else []) ++
          writeBands config header page (FindBlackRasterLineTop page)
            (FindBlackRasterLineEnd page + 1) ++
          (if config.paperReduction = .off ∨ config.paperReduction = .top
           then FeedPaper config header
             (header.cupsHeight - (FindBlackRasterLineEnd page + 1))
           else []))
    ∧ WriteRaster ⟨1, .off⟩ ⟨8, 1, 8, 1⟩
          [[0], [0], [1], [1], [1], [0], [0], [0]] =
        [0x1b, 0x4a, 2] ++
          writeBands ⟨1, .off⟩ ⟨8, 1, 8, 1⟩
            [[0], [0], [1], [1], [1], [0], [0], [0]] 2 5 ++
          [0x1b, 0x4a, 3]
    ∧ WriteRaster ⟨1, .top⟩ ⟨8, 1, 8, 1⟩
          [[0], [0], [1], [1], [1], [0], [0], [0]] =
        writeBands ⟨1, .top⟩ ⟨8, 1, 8, 1⟩
            [[0], [0], [1], [1], [1], [0], [0], [0]] 2 5 ++
          [0x1b, 0x4a, 3]
    ∧ WriteRaster ⟨1, .bottom⟩ ⟨8, 1, 8, 1⟩
          [[0], [0], [1], [1], [1], [0], [0], [0]] =
        [0x1b, 0x4a, 2] ++
          writeBands ⟨1, .bottom⟩ ⟨8, 1, 8, 1⟩
            [[0], [0], [1], [1], [1], [0], [0], [0]] 2 5
    ∧ WriteRaster ⟨1, .both⟩ ⟨8, 1, 8, 1⟩
          [[0], [0], [1], [1], [1], [0], [0], [0]] =
        writeBands ⟨1, .both⟩ ⟨8, 1, 8, 1⟩
          [[0], [0], [1], [1], [1], [0], [0], [0]] 2 5 := by
  refine ⟨?_, by decide, by decide, by decide, by decide⟩
  intro config header page htop
  rw [WriteRaster, if_neg htop]
  cases hmode : config.paperReduction <;> simp [hmode]

/-! ## Cancellation (`g_TmCanceled`) during the band loop and the job tail
(TmImpactSlip.c lines 745-753, 648-654, 587-600, 432-486, 161-169)

`g_TmCanceled` is set asynchronously by `SignalCallback` and read at check
points.  The model threads a check counter `k`: the `n`-th check of this
page-tail reads `flag n`.  Checks happen, in order: after each full band of
the `WriteRaster` loop (line 750), at the top of `EndPage` (line 652), and
at the top of `EndJob` (line 591). -/

/-- `m` consecutive full 8-scanline bands starting at `lineNo`. -/
def fullBands (config : Config) (header : PageHeader) (page : List (List Byte)) :
    Nat → Nat → List Byte
  | 0, _ => []
  | m + 1, lineNo =>
    WriteBand config header (page.drop lineNo) 8 ++
      fullBands config header page m (lineNo + 8)

/-- The band loop with the cancellation checks of lines 750-752: each full
band is written first, then the flag is read; when it is set the loop
returns `EPTMD_CANCEL` at once.  The tail partial band (lines 755-759) and
the loop exits perform no check. -/
def writeBandLoopT (flag : Nat → Bool) (config : Config) (header : PageHeader)
    (page : List (List Byte)) : Nat → Nat → Nat → Nat → List Byte × Int × Nat
  | 0, _, _, k => ([], EPTMD_SUCCESS, k)
  | fuel + 1, lineNo, last, k =>
    if lineNo + 8 < last then
      let bytes := WriteBand config header (page.drop lineNo) 8
      if flag k then (bytes, EPTMD_CANCEL, k + 1)
      else
        let r := writeBandLoopT flag config header page fuel (lineNo + 8) last (k + 1)
        (bytes ++ r.1, r.2)
    else if lineNo < last then
      (WriteBand config header (page.drop lineNo) (last - lineNo), EPTMD_SUCCESS, k)
    else ([], EPTMD_SUCCESS, k)

/-- `WriteRaster` with its cancellation checks: the margin/band structure of
`WriteRaster`, returning `EPTMD_CANCEL` as soon as a check observes the
flag (the bytes already written stay written). -/
def writeRasterT (flag : Nat → Bool) (config : Config) (header : PageHeader)
    (page : List (List Byte)) (k : Nat) : List Byte × Int × Nat :=
  if FindBlackRasterLineTop page = header.cupsHeight then
    ((if config.paperReduction = .off then
        FeedPaper config header header.cupsHeight
      else []), EPTMD_SUCCESS, k)
  else
    let top := if config.paperReduction = .top ∨ config.paperReduction = .both
      then [] else FeedPaper config header (FindBlackRasterLineTop page)
    let r := writeBandLoopT flag config header page
      (FindBlackRasterLineEnd page + 1 + 1) (FindBlackRasterLineTop page)
      (FindBlackRasterLineEnd page + 1) k
    if r.2.1 = EPTMD_SUCCESS then
      (top ++ r.1 ++
        (if config.paperReduction = .bottom ∨ config.paperReduction = .both
         then []
         else FeedPaper config header
           (header.cupsHeight - (FindBlackRasterLineEnd page + 1))),
       EPTMD_SUCCESS, r.2.2)
    else (top ++ r.1, r.2.1, r.2.2)

/-- `EndPage` (lines 648-666): check the flag, then write the `EndPage.prn`
user-file bytes and the eject command `ESC F 0 FF`; on an observed
cancellation nothing is written and `EPTMD_CANCEL` is returned. -/
def endPageT (flag : Nat → Bool) (ePage : List Byte) (k : Nat) :
    List Byte × Int × Nat :=
  if flag k then ([], EPTMD_CANCEL, k + 1)
  else (ePage ++ [0x1b, 0x46, 0, 0x0c], EPTMD_SUCCESS, k + 1)

/-- `EndJob` (lines 587-600): check the flag, then write the `EndJob.prn`
user-file bytes; on an observed cancellation nothing is written and
`EPTMD_CANCEL` is returned. -/
def endJobT (flag : Nat → Bool) (eJob : List Byte) (k : Nat) :
    List Byte × Int × Nat :=
  if flag k then ([], EPTMD_CANCEL, k + 1)
  else (eJob, EPTMD_SUCCESS, k + 1)

/-- The tail of a one-page job from the band loop on, as `DoPage` (lines
605-624) and `DoJob` (lines 469-485) sequence it: `EndPage` runs only when
`WriteRaster` succeeded, `EndJob` always runs, and the first non-success
result is the job's result (`DoJob` keeps an earlier error over `EndJob`'s
result). -/
def doJobTailT (flag : Nat → Bool) (config : Config) (header : PageHeader)
    (page : List (List Byte)) (ePage eJob : List Byte) (k : Nat) :
    List Byte × Int :=
  let r1 := writeRasterT flag config header page k
  if r1.2.1 = EPTMD_SUCCESS then
    let r2 := endPageT flag ePage r1.2.2
    let r3 := endJobT flag eJob r2.2.2
    (r1.1 ++ r2.1 ++ r3.1, if r2.2.1 = EPTMD_SUCCESS then r3.2.1 else r2.2.1)
  else
    let r3 := endJobT flag eJob r1.2.2
    (r1.1 ++ r3.1, r1.2.1)

/-- A `EPTMD_CANCEL` return of the band loop pinpoints the check that
observed the flag: some check `k' - 1 ≥ k` read true, and the output is
exactly the `k' - k` full bands written up to and including the band whose
following check observed the flag — no tail band, and nothing after. -/
lemma writeBandLoopT_cancel (flag : Nat → Bool) (config : Config)
    (header : PageHeader) (page : List (List Byte))
    (fuel lineNo last k : Nat)
    (hres : (writeBandLoopT flag config header page fuel lineNo last k).2.1 =
      EPTMD_CANCEL) :
    (writeBandLoopT flag config header page fuel lineNo last k).1 =
      fullBands config header page
        ((writeBandLoopT flag config header page fuel lineNo last k).2.2 - k)
        lineNo
    ∧ k < (writeBandLoopT flag config header page fuel lineNo last k).2.2
    ∧ flag ((writeBandLoopT flag config header page fuel lineNo last k).2.2 - 1)
        = true := by
  induction fuel generalizing lineNo k with
  | zero =>
    rw [writeBandLoopT] at hres
    simp [EPTMD_SUCCESS, EPTMD_CANCEL] at hres
  | succ fuel ih =>
    rw [writeBandLoopT] at hres ⊢
    by_cases h8 : lineNo + 8 < last
    · rw [if_pos h8] at hres ⊢
      by_cases hf : flag k
      · rw [if_pos hf] at hres ⊢
        dsimp only at hres ⊢
        refine ⟨?_, by omega, by simpa⟩
        have h1 : k + 1 - k = 1 := by omega
        rw [h1, fullBands, fullBands, List.append_nil]
      · rw [if_neg hf] at hres ⊢
        dsimp only at hres ⊢
        obtain ⟨hout, hlt, hflag⟩ := ih (lineNo + 8) (k + 1) hres
        refine ⟨?_, by omega, hflag⟩
        rw [hout]
        have hm : (writeBandLoopT flag config header page fuel (lineNo + 8)
            last (k + 1)).2.2 - k =
          ((writeBandLoopT flag config header page fuel (lineNo + 8)
            last (k + 1)).2.2 - (k + 1)) + 1 := by omega
        rw [hm, fullBands]
    · rw [if_neg h8] at hres ⊢
      by_cases hl : lineNo < last
      · rw [if_pos hl] at hres
        simp [EPTMD_SUCCESS, EPTMD_CANCEL] at hres
      · rw [if_neg hl] at hres
        simp [EPTMD_SUCCESS, EPTMD_CANCEL] at hres

/-- A `EPTMD_CANCEL` return of `writeRasterT` likewise pinpoints an
observing check: it can only come from the band loop. -/
lemma writeRasterT_cancel (flag : Nat → Bool) (config : Config)
    (header : PageHeader) (page : List (List Byte)) (k : Nat)
    (hres : (writeRasterT flag config header page k).2.1 = EPTMD_CANCEL) :
    k < (writeRasterT flag config header page k).2.2
    ∧ flag ((writeRasterT flag config header page k).2.2 - 1) = true := by
  rw [writeRasterT] at hres ⊢
  by_cases hblank : FindBlackRasterLineTop page = header.cupsHeight
  · rw [if_pos hblank] at hres
    simp [EPTMD_SUCCESS, EPTMD_CANCEL] at hres
  · rw [if_neg hblank] at hres ⊢
    dsimp only at hres ⊢
    by_cases hsucc : (writeBandLoopT flag config header page
        (FindBlackRasterLineEnd page + 1 + 1) (FindBlackRasterLineTop page)
        (FindBlackRasterLineEnd page + 1) k).2.1 = EPTMD_SUCCESS
    · rw [if_pos hsucc] at hres
      simp [EPTMD_SUCCESS, EPTMD_CANCEL] at hres
    · rw [if_neg hsucc] at hres ⊢
      exact (writeBandLoopT_cancel flag config header page _ _ _ k hres).2

/-- With the flag never set, the band loop equals the pure loop and
succeeds. -/
lemma writeBandLoopT_false (config : Config) (header : PageHeader)
    (page : List (List Byte)) (fuel lineNo last k : Nat) :
    ∃ kk, writeBandLoopT (fun _ => false) config header page fuel lineNo last k =
      (writeBandLoop config header page fuel lineNo last, EPTMD_SUCCESS, kk) := by
  induction fuel generalizing lineNo k with
  | zero => exact ⟨k, rfl⟩
  | succ fuel ih =>
    rw [writeBandLoopT, writeBandLoop]
    by_cases h8 : lineNo + 8 < last
    · rw [if_pos h8, if_pos h8]
      obtain ⟨kk, hk⟩ := ih (lineNo + 8) (k + 1)
      refine ⟨kk, ?_⟩
      dsimp only
      rw [hk]
      simp
    · rw [if_neg h8, if_neg h8]
      by_cases hl : lineNo < last
      · rw [if_pos hl, if_pos hl]
        exact ⟨k, rfl⟩
      · rw [if_neg hl, if_neg hl]
        exact ⟨k, rfl⟩

/-- With the flag never set, `writeRasterT` writes exactly `WriteRaster`'s
bytes and succeeds. -/
lemma writeRasterT_false (config : Config) (header : PageHeader)
    (page : List (List Byte)) (k : Nat) :
    ∃ kk, writeRasterT (fun _ => false) config header page k =
      (WriteRaster config header page, EPTMD_SUCCESS, kk) := by
  rw [writeRasterT, WriteRaster]
  by_cases hblank : FindBlackRasterLineTop page = header.cupsHeight
  · rw [if_pos hblank, if_pos hblank]
    exact ⟨k, rfl⟩
  · rw [if_neg hblank, if_neg hblank]
    dsimp only
    obtain ⟨kk, hk⟩ := writeBandLoopT_false config header page
      (FindBlackRasterLineEnd page + 1 + 1) (FindBlackRasterLineTop page)
      (FindBlackRasterLineEnd page + 1) k
    rw [hk]
    refine ⟨kk, ?_⟩
    rw [if_pos rfl, writeBands]

/-- Once a check observes the flag (which never resets), `EndPage` is
skipped, `EndJob`'s own check suppresses its output, and the job result is
`EPTMD_CANCEL`: nothing at all follows the band at which cancellation was
observed. -/
lemma doJobTailT_cancel (flag : Nat → Bool) (config : Config)
    (header : PageHeader) (page : List (List Byte)) (ePage eJob : List Byte)
    (k : Nat) (hmono : ∀ i j, i ≤ j → flag i = true → flag j = true)
    (hc : (writeRasterT flag config header page k).2.1 = EPTMD_CANCEL) :
    doJobTailT flag config header page ePage eJob k =
      ((writeRasterT flag config header page k).1, EPTMD_CANCEL) := by
  obtain ⟨hlt, hflag⟩ := writeRasterT_cancel flag config header page k hc
  rw [doJobTailT]
  dsimp only
  rw [if_neg (by rw [hc]; decide)]
  have hk1 : flag ((writeRasterT flag config header page k).2.2) = true :=
    hmono _ _ (by omega) hflag
  rw [endJobT, if_pos hk1]
  dsimp only
  rw [List.append_nil, hc]

/-- C7 (amended): during a page's band loop the cancellation flag is checked
after each full band is written (no check precedes the first band or the
tail partial band); once a check observes the flag set, the loop output stops
at exactly the bands already written, no further band, feed or epilogue
bytes appear — `EndPage` is skipped and `EndJob`'s own check suppresses its
user-file bytes — and the job's result is the distinct `EPTMD_CANCEL`
outcome rather than success or failure.  With the flag never set the same
code path writes exactly `WriteRaster`'s bytes and succeeds.  Concretely,
on a 40-scanline all-black page (5 bands) with the flag raised between the
first and second check, the job tail emits bands 1 and 2 only and results
in `EPTMD_CANCEL`. -/
theorem claim_C7_cancellation :
    (∀ (flag : Nat → Bool) (config : Config) (header : PageHeader)
        (page : List (List Byte)) (fuel lineNo last k : Nat),
        (writeBandLoopT flag config header page fuel lineNo last k).2.1 =
            EPTMD_CANCEL →
          (writeBandLoopT flag config header page fuel lineNo last k).1 =
            fullBands config header page
              ((writeBandLoopT flag config header page fuel lineNo last k).2.2
                - k) lineNo
          ∧ flag
              ((writeBandLoopT flag config header page fuel lineNo last k).2.2
                - 1) = true)
    ∧ (∀ (flag : Nat → Bool) (config : Config) (header : PageHeader)
        (page : List (List Byte)) (ePage eJob : List Byte) (k : Nat),
        (∀ i j, i ≤ j → flag i = true → flag j = true) →
        (writeRasterT flag config header page k).2.1 = EPTMD_CANCEL →
        doJobTailT flag config header page ePage eJob k =
          ((writeRasterT flag config header page k).1, EPTMD_CANCEL))
    ∧ (∀ (config : Config) (header : PageHeader) (page : List (List Byte))
        (k : Nat),
        ∃ kk, writeRasterT (fun _ => false) config header page k =
          (WriteRaster config header page, EPTMD_SUCCESS, kk))
    ∧ doJobTailT (fun j => decide (1 ≤ j)) ⟨1, .both⟩ ⟨8, 1, 40, 1⟩
          (List.replicate 40 [1]) [0xAA] [0xBB] 0 =
        (WriteBand ⟨1, .both⟩ ⟨8, 1, 40, 1⟩ (List.replicate 40 [1]) 8 ++
          WriteBand ⟨1, .both⟩ ⟨8, 1, 40, 1⟩
            (List.drop 8 (List.replicate 40 [1])) 8,
         EPTMD_CANCEL) := by
  refine ⟨?_, doJobTailT_cancel, writeRasterT_false, by decide⟩
  intro flag config header page fuel lineNo last k h
  obtain ⟨hout, _, hflag⟩ :=
    writeBandLoopT_cancel flag config header page fuel lineNo last k h
  exact ⟨hout, hflag⟩

/-- C7 counterexample: the flag is raised before the band loop begins — every
check observes it set — yet the first full band (and its trailing feed) is
still written before `EPTMD_CANCEL` is returned: the loop checks the flag
after each full band, not before it, so a check "before each band" is
refuted at this input. -/
theorem claim_C7_counterexample :
    (writeRasterT (fun _ => true) ⟨1, .both⟩ ⟨8, 1, 16, 1⟩
        (List.replicate 16 [1]) 0).1 =
      WriteBand ⟨1, .both⟩ ⟨8, 1, 16, 1⟩ (List.replicate 16 [1]) 8
    ∧ (writeRasterT (fun _ => true) ⟨1, .both⟩ ⟨8, 1, 16, 1⟩
        (List.replicate 16 [1]) 0).2.1 = EPTMD_CANCEL
    ∧ WriteBand ⟨1, .both⟩ ⟨8, 1, 16, 1⟩ (List.replicate 16 [1]) 8 ≠ [] :=
  ⟨by decide, by decide, by decide⟩

/-! ## Sink writes (`WriteData`, TmImpactSlip.c lines 1009-1030) and the job
sequence around a failure (`StartJob`/`EndJob`/`DoJob`, lines 432-600) -/

/-- 2^32: `count` in `WriteData` is an `unsigned int` and wraps modulo this. -/
def UINT_MOD : Nat := 4294967296

/-- One outcome of the `write(2)` call inside `WriteData`'s loop: a positive
return of `n` bytes, a zero return, a negative return with `errno == EINTR`,
or any other negative return. -/
inductive WriteOutcome
  | wrote (n : Nat)
  | eof
  | interrupted
  | failed
deriving DecidableEq

/-- The loop of `WriteData` (lines 1014-1029) driven by a list of modelled
`write` outcomes: `for (count = 0; size > count; count += result)` with
`result = write(fd, p_data + count, size - count)`; a zero return breaks, a
negative non-`EINTR` return makes the function return -1 at once, and on
`EINTR` the `continue` statement jumps to the `for` increment
`count += result` with `result == -1`, so `count` becomes `count - 1`
modulo 2^32.  Returns the result code (`none` when the modelled outcomes run
out while the loop would continue) and the trace of offsets `count` at which
a `write` was attempted. -/
def writeDataGo (size : Nat) : List WriteOutcome → Nat → Option Int × List Nat
  | [], count =>
    if size ≤ count then
      (some (if count = size then EPTMD_SUCCESS else EPTMD_FAILED), [])
    else (none, [])
  | o :: rest, count =>
    if size ≤ count then
      (some (if count = size then EPTMD_SUCCESS else EPTMD_FAILED), [])
    else
      match o with
      | .wrote n =>
        let r := writeDataGo size rest ((count + n) % UINT_MOD)
        (r.1, count :: r.2)
      | .eof => (some EPTMD_FAILED, [count])
      | .interrupted =>
        let r := writeDataGo size rest ((count + (UINT_MOD - 1)) % UINT_MOD)
        (r.1, count :: r.2)
      | .failed => (some EPTMD_FAILED, [count])

/-- `WriteData` on a fresh call: the loop starting at `count = 0`. -/
def WriteData (size : Nat) (outs : List WriteOutcome) : Option Int × List Nat :=
  writeDataGo size outs 0

/-- A sequence of job-level `WriteData` calls, each either fully accepted or
failing with its error code, per the call oracle `ok`: the first failing
call ends the sequence with its code (every caller of `WriteData` returns on
the first failure).  Yields the emitted bytes, the result and the next call
index. -/
def runWrites (ok : Nat → Bool) : List (List Byte × Int) → Nat → List Byte × Int × Nat
  | [], idx => ([], EPTMD_SUCCESS, idx)
  | (bytes, err) :: rest, idx =>
    if ok idx then
      let r := runWrites ok rest (idx + 1)
      (bytes ++ r.1, r.2)
    else ([], err, idx + 1)

/-- `StartJob`'s write calls in order (lines 499-531), for drawer and buzzer
`NotUsed` (no bytes of their own): the five configuration commands with
their error codes 2101..2105, then the optional `StartJob.prn` user-file
bytes with error code 2108. -/
def startJobCalls (sPrn : Option (List Byte)) : List (List Byte × Int) :=
  ([([0x1b, 0x3d, 0x01, 0x1b, 0x40], 2101),
    ([0x1b, 0x63, 0x30, 0x04], 2102),
    ([0x1b, 0x63, 0x31, 0x04], 2103),
    ([0x1b, 0x63, 0x33, 0x00], 2104),
    ([0x1d, 0x28, 0x47, 2, 0, 48, 4], 2105)] : List (List Byte × Int)) ++
  (match sPrn with
   | none => []
   | some bytes => [(bytes, 2108)])

/-- `DoJob` (lines 432-486) for a job whose raster stream reports no pages,
with the cancellation flag never raised: `StartJob`'s calls in order; then —
whether or not `StartJob` failed — `EndJob` (line 479 calls it on the error
path too, discarding its result; line 482 keeps it on the success path),
which writes the `EndJob.prn` bytes when that call is accepted and turns a
rejected call into error 2201. -/
def doJobNoPages (ok : Nat → Bool) (sPrn eJob : Option (List Byte)) :
    List Byte × Int :=
  let r1 := runWrites ok (startJobCalls sPrn) 0
  let r2 := match eJob with
    | none => ([], EPTMD_SUCCESS)
    | some bytes =>
      if ok r1.2.2 then ((bytes : List Byte), EPTMD_SUCCESS)
      else ([], (2201 : Int))
  (r1.1 ++ r2.1, if r1.2.1 = EPTMD_SUCCESS then r2.2 else r1.2.1)

/-- C9 (amended): a `write` failure other than an interrupted write makes
`WriteData` return `EPTMD_FAILED` at once — no further write attempt happens
inside that call — and the failing call's error code aborts the current job
stage; however `DoJob` still invokes `EndJob` afterwards, which (with the
cancellation flag unset) attempts the `EndJob.prn` user-file bytes, so
job-epilogue output is still attempted after the failure.  An interrupted
write does continue the loop, but its `continue` executes the `for`
increment `count += result` with `result == -1`: the retry resumes at offset
`count - 1`, re-sending one already-written byte, rather than at the
unwritten remainder — and an `EINTR` before any byte is written wraps
`count` to 2^32 - 1, ending the call as a failure. -/
theorem claim_C9_write_failure :
    (∀ (size count : Nat) (rest : List WriteOutcome), count < size →
        writeDataGo size (.failed :: rest) count = (some EPTMD_FAILED, [count]))
    ∧ (∀ (size count : Nat) (rest : List WriteOutcome),
        0 < count → count < size → size ≤ UINT_MOD →
        writeDataGo size (.interrupted :: rest) count =
          ((writeDataGo size rest (count - 1)).1,
            count :: (writeDataGo size rest (count - 1)).2))
    ∧ (∀ (size : Nat) (rest : List WriteOutcome),
        0 < size → size + 1 < UINT_MOD →
        writeDataGo size (.interrupted :: rest) 0 = (some EPTMD_FAILED, [0]))
    ∧ (∀ (ok : Nat → Bool) (eJob : List Byte), ok 0 = false → ok 1 = true →
        doJobNoPages ok none (some eJob) = (eJob, 2101))
    ∧ WriteData 2 [.wrote 1, .interrupted, .wrote 2] =
        (some EPTMD_SUCCESS, [0, 1, 0]) := by
  refine ⟨?_, ?_, ?_, ?_, by decide⟩
  · intro size count rest h
    rw [writeDataGo, if_neg (by omega)]
  · intro size count rest h0 hs hm
    rw [writeDataGo, if_neg (by omega)]
    have hmod : (count + (UINT_MOD - 1)) % UINT_MOD = count - 1 := by
      unfold UINT_MOD at hm ⊢
      omega
    rw [hmod]
  · intro size rest h0 hm
    rw [writeDataGo, if_neg (by omega)]
    have hmod : (0 + (UINT_MOD - 1)) % UINT_MOD = UINT_MOD - 1 := by
      unfold UINT_MOD
      omega
    rw [hmod]
    dsimp only
    cases rest with
    | nil =>
      rw [writeDataGo.eq_def]
      dsimp only
      rw [if_pos (by unfold UINT_MOD at hm ⊢; omega),
        if_neg (by unfold UINT_MOD at hm ⊢; omega)]
    | cons o rest2 =>
      rw [writeDataGo.eq_def]
      dsimp only
      rw [if_pos (by unfold UINT_MOD at hm ⊢; omega),
        if_neg (by unfold UINT_MOD at hm ⊢; omega)]
  · intro ok eJob h0 h1
    rw [doJobNoPages, startJobCalls]
    simp only [List.append_nil]
    rw [runWrites, if_neg (by rw [h0]; decide)]
    simp [h1, EPTMD_SUCCESS]

/-- C9 counterexample: the very first `WriteData` call of the job (the
device-reset command of `StartJob`) fails with a non-`EINTR` error, the job
aborts with code 2101 — and yet the `EndJob.prn` byte `0xAA` is attempted
and emitted afterwards, because `DoJob` calls `EndJob` on the error path
too: bytes do follow the first failed write. -/
theorem claim_C9_counterexample :
    doJobNoPages (fun i => decide (i ≠ 0)) none (some [0xAA]) = ([0xAA], 2101)
    ∧ ([0xAA] : List Byte) ≠ [] :=
  ⟨by decide, by decide⟩
